import Mathlib

/-!
Verification of the quote-generator script (dynamic quote generator with
web storage, JSON import/export, category filter, and server sync).

The script's data and operations are shallowly embedded below.  The global
mutable `quotes` array is passed explicitly; DOM reads (input fields, the
selected category of the dropdown) become parameters; `Math.random` becomes
an arbitrary natural-number index; `localStorage`/alert/view side effects
are modelled by an explicit state record where a claim needs them.
-/

namespace QuoteGen

/-- A quote record: `{ text, category }`, both strings (source lines 13-17). -/
structure Quote where
  text : String
  category : String
deriving DecidableEq

/-- The body of the `forEach` loop of `resolveConflicts` (source lines
248-254): `quotes.some` tests the *current* (already extended) local array
for an identical `text`; if no match, the candidate is pushed and `updated`
is set to `true`.  The accumulator pairs the array with the flag. -/
def resolveStep (acc : List Quote × Bool) (serverQuote : Quote) : List Quote × Bool :=
  let ex := acc.1.any fun localQuote => localQuote.text == serverQuote.text
  if ex then acc else (acc.1 ++ [serverQuote], true)

/-- The whole loop of `resolveConflicts`, starting from `updated = false`. -/
def resolveConflicts (quotes : List Quote) (serverQuotes : List Quote) : List Quote × Bool :=
  serverQuotes.foldl resolveStep (quotes, false)

/-- The merge algorithm as the spec describes it, by structural recursion on
the candidate list: for each candidate in order, test whether any record of
the (possibly already extended) local sequence has identical `text`; if none
does, append it at the end and report `changed = true`.  Used to state the
refinement claim against `resolveConflicts`. -/
def mergeSpec (localQ : List Quote) (candidates : List Quote) : List Quote × Bool :=
  match candidates with
  | [] => (localQ, false)
  | c :: rest =>
    if localQ.any (fun q => q.text == c.text) then
      mergeSpec localQ rest
    else
      ((mergeSpec (localQ ++ [c]) rest).1, true)

/-- `addQuote` (source lines 77-94): read both inputs trimmed; if either is
empty, alert and leave the array alone (flag `false`); otherwise push the
new record and persist (flag `true` marks the success path, which also
repopulates categories and refreshes the display). -/
def addQuote (quotes : List Quote) (newQuoteText newQuoteCategory : String) :
    List Quote × Bool :=
  let t := newQuoteText.trim
  let c := newQuoteCategory.trim
  if t == "" || c == "" then (quotes, false)
  else (quotes ++ [{ text := t, category := c }], true)

/-- JSON values, as `JSON.parse` can produce them. -/
inductive Json where
  | null : Json
  | bool (b : Bool) : Json
  | num (n : Int) : Json
  | str (s : String) : Json
  | arr (elems : List Json) : Json
  | obj (fields : List (String × Json)) : Json

/-- `importFromJsonFile` (source lines 187-206), acting on the parse result
of the file text: `none` models a `JSON.parse` exception.  If the parsed
value is an array, every element is pushed onto the store in order
(`quotes.push(...importedQuotes)`) — with no per-element validation — and
the success alert is shown; any other top-level value leaves the store
untouched and alerts an error.  The store is `List Json` because import can
push arbitrary JSON values into it.  The second component is the alert
message shown to the user. -/
def importFromJsonFile (quotes : List Json) (parsed : Option Json) :
    List Json × String :=
  match parsed with
  | none => (quotes, "Error parsing JSON file.")
  | some (Json.arr elems) => (quotes ++ elems, "Quotes imported successfully!")
  | some _ => (quotes, "Invalid JSON file format.")

/-- One item of the server response; the source only reads its `title`
(source line 219: `text: item.title`). -/
structure ServerItem where
  title : String
deriving DecidableEq

/-- The mapping step of `fetchServerQuotes` (source lines 218-221):
`data.slice(0, 5).map(item => ({ text: item.title, category: "Server" }))`. -/
def serverQuotesOf (data : List ServerItem) : List Quote :=
  (data.take 5).map fun item => { text := item.title, category := "Server" }

/-- `fetchServerQuotes` (source lines 213-227), success path: map the
response as above and hand exactly that list to `resolveConflicts`. -/
def fetchServerQuotes (quotes : List Quote) (data : List ServerItem) :
    List Quote × Bool :=
  resolveConflicts quotes (serverQuotesOf data)

/-- `getFilteredQuotes` (source lines 139-142): the sentinel value `"all"`
returns the whole store; any other selected value keeps exactly the quotes
whose `category` equals it. -/
def getFilteredQuotes (quotes : List Quote) (selectedCategory : String) : List Quote :=
  if selectedCategory == "all" then quotes
  else quotes.filter fun q => q.category == selectedCategory

/-- What `showRandomQuote` renders into `quoteDisplay`. -/
inductive Display where
  | noQuotes : Display
  | quoteShown (q : Quote) : Display
deriving DecidableEq

/-- `showRandomQuote` (source lines 29-46): with an empty list it renders
the "No quotes available for this category." message and returns; otherwise
it picks the index `Math.floor(Math.random() * length)` — modelled by an
arbitrary natural `r` reduced mod the length — and renders that quote. -/
def showRandomQuote (filteredQuotes : List Quote) (r : Nat) : Display :=
  if h : filteredQuotes.length = 0 then Display.noQuotes
  else
    Display.quoteShown
      (filteredQuotes.get ⟨r % filteredQuotes.length, Nat.mod_lt r (Nat.pos_of_ne_zero h)⟩)

/-- Observable state around the merge: the in-memory array, the persisted
copy under the `"quotes"` storage key (`none` = key absent), the alerts
shown so far, and a counter of view refreshes
(`populateCategories(); showRandomQuote(...)`). -/
structure SyncState where
  quotes : List Quote
  storage : Option (List Quote)
  alerts : List String
  viewRefreshes : Nat
deriving DecidableEq

/-- `resolveConflicts` with its side effects (source lines 245-262): only
when `updated` is true does it `saveQuotes()`, alert, and refresh the
dependent views. -/
def resolveConflictsEffect (st : SyncState) (serverQuotes : List Quote) : SyncState :=
  let res := resolveConflicts st.quotes serverQuotes
  if res.2 then
    { quotes := res.1
      storage := some res.1
      alerts := st.alerts ++ ["New quotes from server have been added and conflicts resolved."]
      viewRefreshes := st.viewRefreshes + 1 }
  else
    { st with quotes := res.1 }

/-! ## Helper lemmas about the merge -/

/-- A step on a candidate whose text already occurs keeps the accumulator. -/
lemma resolveStep_pos (acc : List Quote × Bool) (c : Quote)
    (h : (acc.1.any fun q => q.text == c.text) = true) :
    resolveStep acc c = acc := by
  simp only [resolveStep]
  rw [if_pos h]

/-- A step on a fresh candidate appends it and raises the flag. -/
lemma resolveStep_neg (acc : List Quote × Bool) (c : Quote)
    (h : (acc.1.any fun q => q.text == c.text) = false) :
    resolveStep acc c = (acc.1 ++ [c], true) := by
  have h' : ¬((acc.1.any fun q => q.text == c.text) = true) := by
    rw [h]
    exact Bool.false_ne_true
  simp only [resolveStep]
  rw [if_neg h']

/-- Unfolding `mergeSpec` on a candidate whose text already occurs. -/
lemma mergeSpec_cons_pos (l : List Quote) (c : Quote) (rest : List Quote)
    (h : (l.any fun q => q.text == c.text) = true) :
    mergeSpec l (c :: rest) = mergeSpec l rest := by
  rw [mergeSpec, if_pos h]

/-- Unfolding `mergeSpec` on a fresh candidate. -/
lemma mergeSpec_cons_neg (l : List Quote) (c : Quote) (rest : List Quote)
    (h : (l.any fun q => q.text == c.text) = false) :
    mergeSpec l (c :: rest) = ((mergeSpec (l ++ [c]) rest).1, true) := by
  have h' : ¬((l.any fun q => q.text == c.text) = true) := by
    rw [h]
    exact Bool.false_ne_true
  rw [mergeSpec, if_neg h']

/-- The `foldl` underlying `resolveConflicts`, started from an arbitrary
flag `b`, computes the same list as `mergeSpec` and or-accumulates the
flag. -/
lemma resolveConflicts_foldl (s : List Quote) (l : List Quote) (b : Bool) :
    s.foldl resolveStep (l, b) = ((mergeSpec l s).1, b || (mergeSpec l s).2) := by
  induction s generalizing l b with
  | nil => simp [mergeSpec]
  | cons c rest ih =>
    cases hany : (l.any fun q => q.text == c.text) with
    | true =>
      rw [List.foldl_cons, resolveStep_pos (l, b) c hany, mergeSpec_cons_pos l c rest hany]
      exact ih l b
    | false =>
      rw [List.foldl_cons, resolveStep_neg (l, b) c hany, mergeSpec_cons_neg l c rest hany,
        ih (l ++ [c]) true]
      simp

/-- `resolveConflicts` coincides with the spec-level recursion. -/
lemma resolveConflicts_eq_mergeSpec (l s : List Quote) :
    resolveConflicts l s = mergeSpec l s := by
  unfold resolveConflicts
  rw [resolveConflicts_foldl]
  simp

/-- The merge only ever appends: the result extends the local sequence. -/
lemma mergeSpec_append (l s : List Quote) : ∃ a, (mergeSpec l s).1 = l ++ a := by
  induction s generalizing l with
  | nil => exact ⟨[], (List.append_nil l).symm⟩
  | cons c rest ih =>
    cases hany : (l.any fun q => q.text == c.text) with
    | true =>
      obtain ⟨a, ha⟩ := ih l
      rw [mergeSpec_cons_pos l c rest hany]
      exact ⟨a, ha⟩
    | false =>
      obtain ⟨a, ha⟩ := ih (l ++ [c])
      rw [mergeSpec_cons_neg l c rest hany]
      exact ⟨c :: a, ha.trans (List.append_assoc l [c] a)⟩

/-- A text present in the local sequence is still present after the merge. -/
lemma mergeSpec_any_mono (l s : List Quote) (t : String)
    (h : (l.any fun q => q.text == t) = true) :
    ((mergeSpec l s).1.any fun q => q.text == t) = true := by
  obtain ⟨a, ha⟩ := mergeSpec_append l s
  rw [ha, List.any_append, h, Bool.true_or]

/-- After the merge, every candidate's text occurs in the result. -/
lemma mergeSpec_candidates_present (l s : List Quote) (c : Quote) (hc : c ∈ s) :
    ((mergeSpec l s).1.any fun q => q.text == c.text) = true := by
  induction s generalizing l with
  | nil => cases hc
  | cons d rest ih =>
    rcases List.mem_cons.mp hc with heq | hmem
    · subst heq
      cases hany : (l.any fun q => q.text == c.text) with
      | true =>
        rw [mergeSpec_cons_pos l c rest hany]
        exact mergeSpec_any_mono l rest c.text hany
      | false =>
        have hin : ((l ++ [c]).any fun q => q.text == c.text) = true := by
          rw [List.any_append]
          simp
        rw [mergeSpec_cons_neg l c rest hany]
        exact mergeSpec_any_mono (l ++ [c]) rest c.text hin
    · cases hany : (l.any fun q => q.text == d.text) with
      | true =>
        rw [mergeSpec_cons_pos l d rest hany]
        exact ih l hmem
      | false =>
        rw [mergeSpec_cons_neg l d rest hany]
        exact ih (l ++ [d]) hmem

/-- If every candidate's text already occurs locally, the merge is the
identity and reports no change. -/
lemma mergeSpec_of_all_present (l s : List Quote)
    (h : ∀ c ∈ s, (l.any fun q => q.text == c.text) = true) :
    mergeSpec l s = (l, false) := by
  induction s with
  | nil => rfl
  | cons c rest ih =>
    have hc : (l.any fun q => q.text == c.text) = true := h c (List.mem_cons_self c rest)
    rw [mergeSpec_cons_pos l c rest hc]
    exact ih fun d hd => h d (List.mem_cons_of_mem c hd)

/-- The changed flag is `true` exactly when the merge appended something. -/
lemma mergeSpec_changed_iff (l s : List Quote) :
    (mergeSpec l s).2 = true ↔ (mergeSpec l s).1 ≠ l := by
  induction s generalizing l with
  | nil => simp [mergeSpec]
  | cons c rest ih =>
    cases hany : (l.any fun q => q.text == c.text) with
    | true =>
      rw [mergeSpec_cons_pos l c rest hany]
      exact ih l
    | false =>
      rw [mergeSpec_cons_neg l c rest hany]
      obtain ⟨a, ha⟩ := mergeSpec_append (l ++ [c]) rest
      show true = true ↔ (mergeSpec (l ++ [c]) rest).1 ≠ l
      rw [ha]
      constructor
      · intro _ he
        have hlen := congrArg List.length he
        simp only [List.length_append, List.length_cons, List.length_nil] at hlen
        omega
      · intro _
        rfl

/-- The merge preserves pairwise-distinct texts, also across candidates
appended earlier in the same run. -/
lemma mergeSpec_nodup (l s : List Quote)
    (h : (l.map Quote.text).Nodup) :
    ((mergeSpec l s).1.map Quote.text).Nodup := by
  induction s generalizing l with
  | nil => exact h
  | cons c rest ih =>
    cases hany : (l.any fun q => q.text == c.text) with
    | true =>
      rw [mergeSpec_cons_pos l c rest hany]
      exact ih l h
    | false =>
      have hnotin : c.text ∉ l.map Quote.text := by
        intro hmem
        obtain ⟨q, hq, hqt⟩ := List.mem_map.mp hmem
        have hq2 : (l.any fun q => q.text == c.text) = true :=
          List.any_eq_true.mpr ⟨q, hq, by simp [hqt]⟩
        rw [hany] at hq2
        cases hq2
      have h' : ((l ++ [c]).map Quote.text).Nodup := by
        rw [List.map_append]
        refine List.Nodup.append h (List.nodup_singleton c.text) ?_
        intro a ha hb
        simp only [List.map_cons, List.map_nil, List.mem_singleton] at hb
        subst hb
        exact hnotin ha
      rw [mergeSpec_cons_neg l c rest hany]
      exact ih (l ++ [c]) h'

/-! ## Claim theorems -/

/-- Claim C1: `resolveConflicts` processes the candidates in order and, for
each candidate, appends it to the end of the local sequence exactly when no
record in the (possibly already extended) local sequence has identical
text, skipping candidates whose text already occurs; the changed flag ends
up `true` exactly when at least one candidate was appended.  Formally, it
coincides with the spec-level recursion `mergeSpec`, and its flag is `true`
exactly when the sequence grew. -/
theorem resolveConflicts_matches_spec (l s : List Quote) :
    resolveConflicts l s = mergeSpec l s ∧
    ((resolveConflicts l s).2 = true ↔ (resolveConflicts l s).1 ≠ l) := by
  refine ⟨resolveConflicts_eq_mergeSpec l s, ?_⟩
  rw [resolveConflicts_eq_mergeSpec l s]
  exact mergeSpec_changed_iff l s

/-- Claim C2: on local `[{A,X}]` and external `[{A,Y}, {B,Z}]` the merge
returns `[{A,X}, {B,Z}]` with `changed = true`: the candidate `{A,Y}` with
matching text but different category is skipped and does not overwrite the
local category `X`. -/
theorem resolveConflicts_concrete_example :
    resolveConflicts [⟨"A", "X"⟩] [⟨"A", "Y"⟩, ⟨"B", "Z"⟩] =
      ([⟨"A", "X"⟩, ⟨"B", "Z"⟩], true) := by
  decide

/-- Claim C3: the merge is idempotent — merging the same external sequence
into the result of a first merge appends nothing and reports
`changed = false`. -/
theorem resolveConflicts_idempotent (l s : List Quote) :
    resolveConflicts (resolveConflicts l s).1 s = ((resolveConflicts l s).1, false) := by
  rw [resolveConflicts_eq_mergeSpec l s, resolveConflicts_eq_mergeSpec (mergeSpec l s).1 s]
  exact mergeSpec_of_all_present (mergeSpec l s).1 s
    fun c hc => mergeSpec_candidates_present l s c hc

/-- Claim C4: every mutating operation on the store — server merge, user
add, JSON import — only appends: the prior sequence is a prefix of the new
one, so no existing record is deleted, moved, or updated in place. -/
theorem mutations_preserve_existing (quotes server : List Quote) (t c : String)
    (store : List Json) (parsed : Option Json) :
    (∃ added, (resolveConflicts quotes server).1 = quotes ++ added) ∧
    (∃ added, (addQuote quotes t c).1 = quotes ++ added) ∧
    (∃ added, (importFromJsonFile store parsed).1 = store ++ added) := by
  refine ⟨?_, ?_, ?_⟩
  · rw [resolveConflicts_eq_mergeSpec quotes server]
    exact mergeSpec_append quotes server
  · cases hb : (t.trim == "" || c.trim == "") with
    | true =>
      refine ⟨[], ?_⟩
      simp only [addQuote, hb]
      simp
    | false =>
      refine ⟨[⟨t.trim, c.trim⟩], ?_⟩
      simp only [addQuote, hb]
      simp
  · cases parsed with
    | none => exact ⟨[], (List.append_nil store).symm⟩
    | some j =>
      cases j with
      | arr elems => exact ⟨elems, rfl⟩
      | null => exact ⟨[], (List.append_nil store).symm⟩
      | bool b => exact ⟨[], (List.append_nil store).symm⟩
      | num n => exact ⟨[], (List.append_nil store).symm⟩
      | str s => exact ⟨[], (List.append_nil store).symm⟩
      | obj fields => exact ⟨[], (List.append_nil store).symm⟩

/-- Claim C5: merging an empty external sequence reports `changed = false`,
leaves the local sequence unchanged, and triggers neither the persistence
write nor the alert nor a view refresh: the whole observable state is
untouched. -/
theorem resolveConflicts_empty_frame (st : SyncState) :
    resolveConflicts st.quotes [] = (st.quotes, false) ∧
    resolveConflictsEffect st [] = st :=
  ⟨rfl, rfl⟩

/-- Claim C6: importing a document whose top-level parsed value is not an
array — including documents that fail to parse at all — leaves the store
completely unchanged and alerts one of the two error messages. -/
theorem importFromJsonFile_rejects_nonarray (store : List Json) (parsed : Option Json)
    (h : ∀ elems, parsed ≠ some (Json.arr elems)) :
    (importFromJsonFile store parsed).1 = store ∧
    ((importFromJsonFile store parsed).2 = "Invalid JSON file format." ∨
      (importFromJsonFile store parsed).2 = "Error parsing JSON file.") := by
  cases parsed with
  | none => exact ⟨rfl, Or.inr rfl⟩
  | some j =>
    cases j with
    | arr elems => exact absurd rfl (h elems)
    | null => exact ⟨rfl, Or.inl rfl⟩
    | bool b => exact ⟨rfl, Or.inl rfl⟩
    | num n => exact ⟨rfl, Or.inl rfl⟩
    | str s => exact ⟨rfl, Or.inl rfl⟩
    | obj fields => exact ⟨rfl, Or.inl rfl⟩

/-- Witness for C6 at the concrete non-array document `5`. -/
theorem importFromJsonFile_rejects_nonarray_witness :
    (importFromJsonFile [] (some (Json.num 5))).1 = [] ∧
    ((importFromJsonFile [] (some (Json.num 5))).2 = "Invalid JSON file format." ∨
      (importFromJsonFile [] (some (Json.num 5))).2 = "Error parsing JSON file.") :=
  importFromJsonFile_rejects_nonarray [] (some (Json.num 5))
    fun _ h => Json.noConfusion (Option.some.inj h)

/-- Claim C7: the fetch step maps exactly the first 5 response items (fewer
if the response is shorter) to quote records whose text is the item's title
and whose category is the constant `"Server"`, and hands exactly that
mapped sequence to the merge. -/
theorem fetchServerQuotes_maps_first_five (quotes : List Quote) (data : List ServerItem) :
    (serverQuotesOf data).length = min 5 data.length ∧
    (serverQuotesOf data).map Quote.text = (data.take 5).map ServerItem.title ∧
    (∀ q ∈ serverQuotesOf data, q.category = "Server") ∧
    fetchServerQuotes quotes data = resolveConflicts quotes (serverQuotesOf data) := by
  refine ⟨?_, ?_, ?_, rfl⟩
  · simp [serverQuotesOf]
  · simp [serverQuotesOf, List.map_map]
    rfl
  · intro q hq
    simp only [serverQuotesOf, List.mem_map] at hq
    obtain ⟨item, _, rfl⟩ := hq
    rfl

/-- Counterexample to C8 as stated: with store `[{A,X}]` and selected
category `"all"` (the default sentinel of the dropdown), no stored quote
has category `"all"`, yet the filter returns the whole store rather than
the empty subset, and the renderer shows a quote instead of the empty
display state. -/
theorem filter_all_sentinel_counterexample :
    (∀ q ∈ [Quote.mk "A" "X"], q.category ≠ "all") ∧
    getFilteredQuotes [Quote.mk "A" "X"] "all" ≠ [] ∧
    showRandomQuote (getFilteredQuotes [Quote.mk "A" "X"] "all") 0 =
      Display.quoteShown (Quote.mk "A" "X") := by
  decide

/-- Claim C8 (amended): for every store and every selected category other
than the sentinel `"all"`, if no stored quote has that category then the
filter yields the empty subset and the renderer produces the empty display
state (the "no quotes available" message) for any random draw. -/
theorem filter_no_match_yields_empty_display (quotes : List Quote) (cat : String)
    (hall : cat ≠ "all") (h : ∀ q ∈ quotes, q.category ≠ cat) :
    getFilteredQuotes quotes cat = [] ∧
    ∀ r, showRandomQuote (getFilteredQuotes quotes cat) r = Display.noQuotes := by
  have hcat : ¬((cat == "all") = true) := by
    intro hb
    exact hall (by simpa using hb)
  have hempty : getFilteredQuotes quotes cat = [] := by
    unfold getFilteredQuotes
    rw [if_neg hcat]
    rw [List.filter_eq_nil_iff]
    intro q hq
    intro hb
    exact h q hq (by simpa using hb)
  refine ⟨hempty, fun r => ?_⟩
  rw [hempty]
  rfl

/-- Witness for the amended C8 at a concrete store and category. -/
theorem filter_no_match_yields_empty_display_witness :
    getFilteredQuotes [Quote.mk "A" "X"] "Y" = [] ∧
    showRandomQuote (getFilteredQuotes [Quote.mk "A" "X"] "Y") 3 = Display.noQuotes := by
  have h := filter_no_match_yields_empty_display [Quote.mk "A" "X"] "Y"
    (by decide) (by decide)
  exact ⟨h.1, h.2 3⟩

/-- Claim C9: import validates only the top-level shape — when the parsed
document is an array, every element is appended to the store in order,
whatever its shape (numbers, strings, objects without text or category),
and the success message is reported. -/
theorem importFromJsonFile_appends_all (store elems : List Json) :
    importFromJsonFile store (some (Json.arr elems)) =
      (store ++ elems, "Quotes imported successfully!") :=
  rfl

/-- Claim C10: if the local sequence has pairwise-distinct texts, so does
the merge result, even when the candidate sequence repeats a text, because
each candidate is tested against the sequence as already extended. -/
theorem resolveConflicts_preserves_distinct_texts (l s : List Quote)
    (h : (l.map Quote.text).Nodup) :
    (((resolveConflicts l s).1).map Quote.text).Nodup := by
  rw [resolveConflicts_eq_mergeSpec l s]
  exact mergeSpec_nodup l s h

/-- Witness for C10 with a candidate list that repeats the text "B". -/
theorem resolveConflicts_preserves_distinct_texts_witness :
    (([Quote.mk "A" "X"].map Quote.text).Nodup) ∧
    (((resolveConflicts [Quote.mk "A" "X"]
        [Quote.mk "B" "Y", Quote.mk "B" "Z"]).1).map Quote.text).Nodup :=
  ⟨by decide, resolveConflicts_preserves_distinct_texts
    [Quote.mk "A" "X"] [Quote.mk "B" "Y", Quote.mk "B" "Z"] (by decide)⟩

end QuoteGen
